import Mathlib

/-!
Verification of the tsutil MPEG transport-stream library (src/packet.rs,
src/psi.rs) against its natural-language specification.

Shallow embedding conventions:
* a 188-byte packet buffer (Rust `PacketData = [u8; 188]`) is a function
  `Nat → Nat` giving the byte at each index; every stored byte is reduced
  mod 256 to model `u8`;
* byte slices handed out by the decoder are `List Nat`;
* Rust operations that can panic (index/slice out of bounds, `usize`
  subtraction underflow) are modelled as `Option`, with `none` at exactly
  the panic condition;
* `u32`/`u8` wrap-around is written `% 4294967296` / `% 256`, and the
  `u64` product in `pcr_to_nanos` wraps `% 18446744073709551616`.
-/

set_option maxRecDepth 100000
set_option maxHeartbeats 2000000

namespace TsUtil

/-- A 188-byte transport-stream frame, byte at each index. -/
def PacketData : Type := Nat → Nat

instance : CoeFun PacketData (fun _ => Nat → Nat) := ⟨fun p => p⟩

/-- The list of `len` bytes of `p` starting at index `start` (a Rust slice
`&p[start..start+len]`, bounds handled at each use site). -/
def extract (p : PacketData) (start len : Nat) : List Nat :=
  (List.range len).map (fun i => p (start + i))

/-- Store one byte: `p[i] = v` on a `[u8; 188]`; `none` models the Rust
index-out-of-bounds panic. -/
def aset (p : PacketData) (i v : Nat) : Option PacketData :=
  if i < 188 then some (fun j => if j = i then v % 256 else p j) else none

/-- Consecutive byte stores `p[i] = vs[0]; p[i+1] = vs[1]; ...`. -/
def writeBytes : PacketData → Nat → List Nat → Option PacketData
  | p, _, [] => some p
  | p, i, v :: vs => (aset p i v).bind (fun q => writeBytes q (i + 1) vs)

/-- BigEndian::read_u16 at offset `i` of a byte slice. -/
def read_u16 (s : List Nat) (i : Nat) : Nat :=
  ((s.getD i 0) <<< 8) + s.getD (i + 1) 0

/-- BigEndian::read_u32 at offset `i` of a byte slice. -/
def read_u32 (s : List Nat) (i : Nat) : Nat :=
  ((s.getD i 0) <<< 24) + ((s.getD (i + 1) 0) <<< 16) +
    ((s.getD (i + 2) 0) <<< 8) + s.getD (i + 3) 0

/-- BigEndian::write_u32: the four big-endian bytes of a `u32`. -/
def be32 (v : Nat) : List Nat :=
  [(v >>> 24) % 256, (v >>> 16) % 256, (v >>> 8) % 256, v % 256]

/-- Packet::new caches `header = BigEndian::read_u32(&data[0..4])`. -/
def header (p : PacketData) : Nat :=
  ((p 0) <<< 24) + ((p 1) <<< 16) + ((p 2) <<< 8) + p 3

/-- PacketHeader::afc for a packet: `(header & 0x30) >> 4`. -/
def afc (p : PacketData) : Nat := (header p &&& 0x30) >>> 4

/-- PacketHeader::has_adaptation_field: `0 != afc & 0x2`. -/
def has_adaptation_field (p : PacketData) : Bool := (afc p &&& 0x2) != 0

/-- PacketHeader::has_payload: `0 != afc & 0x1`. -/
def has_payload (p : PacketData) : Bool := (afc p &&& 0x1) != 0

/-- Packet::create_packet: 0xFF-filled frame, then the four header bytes.
The byte-1 computation mirrors the source: start from 0xFF, XOR off the
flag bits that are false, then AND with `0xE0 | (pid >> 8)` cast to u8. -/
def create_packet (tei pusi priority : Bool) (pid tsc afcp cc : Nat) : PacketData :=
  let b1a : Nat := 0xFF
  let b1b := if tei then b1a else b1a ^^^ 0x80
  let b1c := if pusi then b1b else b1b ^^^ 0x40
  let b1d := if priority then b1c else b1c ^^^ 0x20
  let b1 := b1d &&& ((0xE0 ||| (pid >>> 8)) % 256)
  let b2 := 0xFF &&& (pid &&& 0xFF)
  let b3 := ((((tsc <<< 6) % 256) &&& 0xC0) + (((afcp <<< 4) % 256) &&& 0x30) + (cc &&& 0xF)) % 256
  fun j => if j = 0 then 0x47 else if j = 1 then b1 else if j = 2 then b2
    else if j = 3 then b3 else 0xFF

/-- AdaptationField::aflen: `data[4]`. -/
def aflen (p : PacketData) : Nat := p 4

/-- AdaptationField::has_pcr: bit 0x10 of `data[5]`. -/
def has_pcr (p : PacketData) : Bool := (p 5 &&& 0x10) != 0

/-- AdaptationField::has_opcr: bit 0x8 of `data[5]`. -/
def has_opcr (p : PacketData) : Bool := (p 5 &&& 0x8) != 0

/-- AdaptationField::has_splice_countdown: bit 0x4 of `data[5]`. -/
def has_splice_countdown (p : PacketData) : Bool := (p 5 &&& 0x4) != 0

/-- AdaptationField::has_transport_private_data: bit 0x2 of `data[5]`. -/
def has_transport_private_data (p : PacketData) : Bool := (p 5 &&& 0x2) != 0

/-- read_pcr_data.  NOTE the Rust source reads
`let upper = high_int << 1 + (low_short & 0x8000 >> 15);`
which by Rust operator precedence (`>>` binds tighter than `&`, and `+`
tighter than `<<`) is `high_int << (1 + (low_short & (0x8000 >> 15)))`,
i.e. a shift by 1 plus the LOW bit of `low_short`.  The embedding keeps
that parse. -/
def read_pcr_data (buf : List Nat) : Nat :=
  let high_int := read_u32 buf 0
  let low_short := read_u16 buf 4
  let upper := high_int <<< (1 + (low_short &&& (0x8000 >>> 15)))
  let lower := low_short &&& 0x1ff
  upper * 300 + lower

/-- pcr_to_nanos: `(pcr * 1_000_000_000) / 27_000_000` in `u64` arithmetic;
the multiplication wraps modulo 2^64. -/
def pcr_to_nanos (pcr : Nat) : Nat :=
  (pcr * 1000000000) % 18446744073709551616 / 27000000

/-- AdaptationField::pcr: decode `data[6..13]` when the PCR flag is set. -/
def pcr (p : PacketData) : Nat :=
  if has_pcr p then read_pcr_data (extract p 6 7) else 0

/-- AdaptationField::pcr_nanos. -/
def pcr_nanos (p : PacketData) : Nat := pcr_to_nanos (pcr p)

/-- AdaptationField::opcr: decodes `data[13..20]` when `has_pcr` (sic —
gated on the PCR flag, not the OPCR flag), else falls back to `pcr()`. -/
def opcr (p : PacketData) : Nat :=
  if has_pcr p then read_pcr_data (extract p 13 7) else pcr p

/-- AdaptationField::opcr_nanos. -/
def opcr_nanos (p : PacketData) : Nat := pcr_to_nanos (opcr p)

/-- AdaptationField::splice_countdown with the source's nested flag tests. -/
def splice_countdown (p : PacketData) : Nat :=
  if has_splice_countdown p then
    if has_pcr p then (if has_opcr p then p 20 else p 13)
    else (if has_opcr p then p 13 else p 6)
  else 0

/-- AdaptationField::transport_private_data_len, nested flag tests as in
the source. -/
def transport_private_data_len (p : PacketData) : Nat :=
  if has_transport_private_data p then
    if has_splice_countdown p then
      if has_pcr p then (if has_opcr p then p 21 else p 14)
      else (if has_opcr p then p 14 else p 7)
    else
      if has_pcr p then (if has_opcr p then p 20 else p 14)
      else (if has_opcr p then p 14 else p 7)
  else 0

/-- Slice `&data[start..start+len]` of the 188-byte frame; `none` is the
out-of-bounds panic. -/
def frame_slice (p : PacketData) (start len : Nat) : Option (List Nat) :=
  if start + len ≤ 188 then some (extract p start len) else none

/-- AdaptationField::transport_private_data. -/
def transport_private_data (p : PacketData) : Option (List Nat) :=
  if has_transport_private_data p then
    let trans_len := transport_private_data_len p
    if has_splice_countdown p then
      if has_pcr p then
        (if has_opcr p then frame_slice p 22 trans_len else frame_slice p 15 trans_len)
      else
        (if has_opcr p then frame_slice p 15 trans_len else frame_slice p 8 trans_len)
    else
      if has_pcr p then
        (if has_opcr p then frame_slice p 21 trans_len else frame_slice p 15 trans_len)
      else
        (if has_opcr p then frame_slice p 15 trans_len else frame_slice p 8 trans_len)
  else some []

/-- Payload::payload_data: `&data[offset..188]` with
`offset = 4 + aflen` when an adaptation field is present (the source does
NOT add 1 for the length byte itself), else `offset = 4`. -/
def payload_data (p : PacketData) : Option (List Nat) :=
  let offset := if has_adaptation_field p then 4 + aflen p else 4
  if offset ≤ 188 then some (extract p offset (188 - offset)) else none

/-- PSI::tables: requires a payload; skips the pointer byte `data[0]` plus
that many padding bytes.  `none` covers both the Rust `None` (no payload)
and the slice panic when the pointer overruns the payload. -/
def tables (p : PacketData) : Option (List Nat) :=
  if has_payload p then
    (payload_data p).bind (fun data =>
      match data with
      | [] => none
      | d0 :: rest => if d0 ≤ rest.length then some (rest.drop d0) else none)
  else none

/-- TableHeader::table_id: byte 0. -/
def table_id (s : List Nat) : Nat := s.getD 0 0

/-- TableHeader::section_length: `0x3ff & read_u16(bytes 1..3)`. -/
def section_length (s : List Nat) : Nat := 0x3FF &&& read_u16 s 1

/-- TableHeader::section_data: `&s[..3 + section_length]`. -/
def section_data (s : List Nat) : Option (List Nat) :=
  if 3 + section_length s ≤ s.length then some (s.take (3 + section_length s)) else none

/-- TableHeader::next: a following section if bytes remain past the
current one and its table id is not the 0xFF filler. -/
def next (s : List Nat) : Option (List Nat) :=
  if 3 + section_length s < s.length then
    (let nxt := s.drop (3 + section_length s)
     if table_id nxt < 0xFF then some nxt else none)
  else none

/-- Iterated TableHeader::next. -/
def nth_table : List Nat → Nat → Option (List Nat)
  | s, 0 => some s
  | s, i + 1 => (next s).bind (fun t => nth_table t i)

/-- TableSyntaxSection::table_id_ext: big-endian bytes 3..5. -/
def table_id_ext (s : List Nat) : Nat := read_u16 s 3

/-- TableSyntaxSection::version: bits 1..5 of byte 5. -/
def version (s : List Nat) : Nat := ((s.getD 5 0) >>> 1) &&& 0x1F

/-- TableSyntaxSection::current: bit 0 of byte 5. -/
def current (s : List Nat) : Bool := ((s.getD 5 0) &&& 1) == 1

/-- TableSyntaxSection::section_num: byte 6. -/
def section_num (s : List Nat) : Nat := s.getD 6 0

/-- TableSyntaxSection::last_section_num: byte 7. -/
def last_section_num (s : List Nat) : Nat := s.getD 7 0

/-- TableSyntaxSection::table_data: `&s[8..len-4]`; `none` is the panic
when the slice has fewer than 12 bytes. -/
def table_data (s : List Nat) : Option (List Nat) :=
  if 4 ≤ s.length ∧ 8 ≤ s.length - 4 then some ((s.take (s.length - 4)).drop 8)
  else none

/-- TableSyntaxSection::crc32: big-endian u32 in the last 4 bytes. -/
def crc32 (s : List Nat) : Nat := read_u32 s (s.length - 4)

/-- PAT::program_num: bytes 0..2. -/
def program_num (t : List Nat) : Nat := read_u16 t 0

/-- PAT::program_map_pid: 13 bits of bytes 2..4. -/
def program_map_pid (t : List Nat) : Nat := 0x1FFF &&& read_u16 t 2

/-- PAT::next_program. -/
def next_program (t : List Nat) : Option (List Nat) :=
  if 8 ≤ t.length then some (t.drop 4) else none

/-- PMT::pcr_pid: 13 bits of bytes 0..2. -/
def pcr_pid (t : List Nat) : Nat := 0x1FFF &&& read_u16 t 0

/-- PMT::program_info_len: 10 bits of bytes 2..4. -/
def program_info_len (t : List Nat) : Nat := 0x3FF &&& read_u16 t 2

/-- PMT::descriptor_data: `Some` descriptor range when the length is
positive, Rust `None` otherwise; the outer `none` is the slice panic. -/
def descriptor_data (t : List Nat) : Option (Option (List Nat)) :=
  let desc_len := program_info_len t
  if 0 < desc_len then
    (if 4 + desc_len ≤ t.length then some (some ((t.drop 4).take desc_len)) else none)
  else some none

/-- PMT::elementary_streams: `&t[4 + program_info_len..]`. -/
def elementary_streams (t : List Nat) : Option (List Nat) :=
  if 4 + program_info_len t ≤ t.length then some (t.drop (4 + program_info_len t))
  else none

/-- ElementaryStream::stream_type: byte 0. -/
def stream_type (e : List Nat) : Nat := e.getD 0 0

/-- ElementaryStream::stream_pid: 13 bits of bytes 1..3. -/
def stream_pid (e : List Nat) : Nat := 0x1FFF &&& read_u16 e 1

/-- ElementaryStream::es_info_len: 10 bits of bytes 3..5. -/
def es_info_len (e : List Nat) : Nat := 0x3FF &&& read_u16 e 3

/-- ElementaryStream::es_info: `&e[5..5+len]`. -/
def es_info (e : List Nat) : Option (List Nat) :=
  if 5 + es_info_len e ≤ e.length then some ((e.drop 5).take (es_info_len e))
  else none

/-- ElementaryStream::next_stream: following 5-byte entry unless the next
stream type is the 0xFF filler. -/
def next_stream (e : List Nat) : Option (List Nat) :=
  if 5 + es_info_len e < e.length then
    (let nxt := e.drop (5 + es_info_len e)
     if stream_type nxt < 0xFF then some nxt else none)
  else none

/-- One shift-and-compare CRC step on the `u32` accumulator. -/
def crc_step (crc dat : Nat) : Nat :=
  if (decide (0x80000000 ≤ crc)) != (decide (0x80 ≤ dat)) then
    ((crc <<< 1) % 4294967296) ^^^ 0x04C11DB7
  else (crc <<< 1) % 4294967296

/-- The 8-iteration inner loop of calc_crc32: `dat` is shifted left (as a
`u8`) after each step. -/
def crc_byte : Nat → Nat → Nat → Nat
  | 0, crc, _ => crc
  | k + 1, crc, dat => crc_byte k (crc_step crc dat) ((dat <<< 1) % 256)

/-- calc_crc32: seed 0xFFFFFFFF over all bytes but the trailing 4; inputs
shorter than 4 bytes give 0. -/
def calc_crc32 (l : List Nat) : Nat :=
  if 4 ≤ l.length then
    (l.take (l.length - 4)).foldl (fun crc b => crc_byte 8 crc b) 0xFFFFFFFF
  else 0

/-- The 12 bytes of one synthesized PAT section before its CRC trailer,
exactly the values insert_pat_payload stores (u8 casts as `% 256` /
`&&& 0xFF`). -/
def pat_body (num pid : Nat) : List Nat :=
  [0, 0x80 ||| 0x30, 13, 0, 1, 0xC1, 0, 0,
   (num >>> 8) % 256, num &&& 0xFF, 0xE0 ||| ((pid >>> 8) % 256), pid &&& 0xFF]

/-- The CRC value insert_pat_payload stamps: calc_crc32 over the 16-byte
window whose trailing 4 placeholder bytes are ignored by calc_crc32. -/
def pat_crc (num pid : Nat) : Nat :=
  calc_crc32 (pat_body num pid ++ [0xFF, 0xFF, 0xFF, 0xFF])

/-- One complete 16-byte synthesized PAT section. -/
def pat_section (num pid : Nat) : List Nat :=
  pat_body num pid ++ be32 (pat_crc num pid)

/-- insert_pat_payload: 12 byte stores at `offset`, then the CRC of the
16-byte window `&pat[offset..offset+16]` written big-endian at
`offset+12`. -/
def insert_pat_payload (offset num pid : Nat) (pat : PacketData) : Option PacketData :=
  (writeBytes pat offset (pat_body num pid)).bind (fun pat1 =>
    if offset + 16 ≤ 188 then
      writeBytes pat1 (offset + 12) (be32 (calc_crc32 (extract pat1 offset 16)))
    else none)

/-- The loop of create_pat_packet: one section per pid at
`pointer + 5 + 16 * prog_num`, with the program number incremented before
the insert. -/
def write_pat_sections (pointer : Nat) : Nat → List Nat → PacketData → Option PacketData
  | _, [], pat => some pat
  | prog_num, pid :: rest, pat =>
      (insert_pat_payload (pointer + 5 + 16 * prog_num) (prog_num + 1) pid pat).bind
        (write_pat_sections pointer (prog_num + 1) rest)

/-- create_pat_packet; `none` models the `usize` underflow panic of
`188 - 5 - 16 * pid_count` (and any out-of-frame store). -/
def create_pat_packet (pids : List Nat) (cc : Nat) : Option PacketData :=
  let pat := create_packet false true false 0 0 1 cc
  let pid_count := pids.length
  if 5 + 16 * pid_count ≤ 188 then
    (aset pat 4 (188 - 5 - 16 * pid_count)).bind
      (write_pat_sections (188 - 5 - 16 * pid_count) 0 pids)
  else none

/-- The expected concatenation of synthesized PAT sections with program
numbers counting up from `n`. -/
def pat_sections : Nat → List Nat → List Nat
  | _, [] => []
  | n, pid :: rest => pat_section n pid ++ pat_sections (n + 1) rest

/-- The 12 PMT section header bytes create_pmt_packet stores (byte 2 is
`13 + 5 * stream_count` computed in `u8`). -/
def pmt_header_bytes (c : Nat) : List Nat :=
  [2, 0x80 ||| 0x30, (13 + 5 * (c % 256)) % 256, 0, 1, 0xC1, 0, 0, 0xFF, 0xFF, 0xF0, 0]

/-- The elementary-stream loop of create_pmt_packet.  NOTE the source
advances `pair_num` by 1 per pair while storing 5 bytes per pair, so
successive entries overlap; the embedding keeps that behavior. -/
def write_streams (offset : Nat) : Nat → List (Nat × Nat) → PacketData → Option PacketData
  | _, [], pmt => some pmt
  | pair_num, pair :: rest, pmt =>
      (writeBytes pmt (offset + 12 + pair_num)
        [pair.2, 0xE0 + ((pair.1 >>> 8) &&& 0x1F), pair.1 &&& 0xFF, 0xF0, 0]).bind
        (write_streams offset (pair_num + 1) rest)

/-- create_pmt_packet; pairs are (elementary pid, stream type). -/
def create_pmt_packet (pid : Nat) (pid_type_pairs : List (Nat × Nat)) (cc : Nat) :
    Option PacketData :=
  let pmt := create_packet false true false pid 0 1 cc
  let stream_count := pid_type_pairs.length
  if 5 + 16 + 5 * stream_count ≤ 188 then
    (aset pmt 4 (188 - 5 - 16 - 5 * stream_count)).bind (fun pmt1 =>
      let offset := 188 - 5 - 16 - 5 * stream_count + 5
      (writeBytes pmt1 offset (pmt_header_bytes stream_count)).bind (fun pmt2 =>
        (write_streams offset 0 pid_type_pairs pmt2).bind (fun pmt3 =>
          if offset + 16 + 5 * stream_count ≤ 188 then
            writeBytes pmt3 (offset + 12 + 5 * stream_count)
              (be32 (calc_crc32 (extract pmt3 offset (16 + 5 * stream_count))))
          else none)))
  else none

/-- Modelled from the spec: one shift-and-compare step of the MPEG-2
bit-serial CRC32, comparing the accumulator sign bit with the given
message bit. -/
def mpeg2_crc32_step (acc : Nat) (bit : Bool) : Nat :=
  if acc.testBit 31 != bit then ((acc <<< 1) % 4294967296) ^^^ 0x04C11DB7
  else (acc <<< 1) % 4294967296

/-- Modelled from the spec: one byte processed MSB-first in 8 steps. -/
def mpeg2_crc32_byte (acc b : Nat) : Nat :=
  (List.range 8).foldl (fun a k => mpeg2_crc32_step a (b.testBit (7 - k))) acc

/-- Modelled from the spec: MPEG-2 bit-serial CRC32 with seed 0xFFFFFFFF,
no reflection and no final XOR. -/
def mpeg2_crc32 (l : List Nat) : Nat := l.foldl mpeg2_crc32_byte 0xFFFFFFFF

/-- Modelled from the spec: standard PCR decoding
`base*300 + extension` with `base = (high << 1) | bit15(low)` and
`extension = low & 0x1FF`. -/
def decode_pcr_spec (buf : List Nat) : Nat :=
  let high := read_u32 buf 0
  let low := read_u16 buf 4
  let base := (high <<< 1) ||| ((low >>> 15) &&& 1)
  base * 300 + (low &&& 0x1FF)

/-- Modelled from the spec: cumulative-offset of the splice_countdown
sub-field (packet byte index 6 plus 6 bytes per preceding present PCR /
OPCR field). -/
def splice_offset_spec (p : PacketData) : Nat :=
  6 + (if has_pcr p then 6 else 0) + (if has_opcr p then 6 else 0)

/-- Modelled from the spec: cumulative-offset of the
transport_private_data_length sub-field. -/
def tpd_len_offset_spec (p : PacketData) : Nat :=
  6 + (if has_pcr p then 6 else 0) + (if has_opcr p then 6 else 0) +
    (if has_splice_countdown p then 1 else 0)

/-- Modelled from the spec (claim C6): payload_data with the payload
starting at `4 + (aflen + 1)` when an adaptation field is present. -/
def payload_data_spec (p : PacketData) : Option (List Nat) :=
  let offset := if has_adaptation_field p then 4 + (aflen p + 1) else 4
  if offset ≤ 188 then some (extract p offset (188 - offset)) else none

/-- A concrete adaptation-field packet (AFC = 3) whose byte 5 carries the
given flag bits and whose other bytes past the header equal their own
index, so reads reveal which offset was accessed. -/
def af_flags_packet (flags : Nat) : PacketData :=
  fun j => if j = 3 then 0x30 else if j = 5 then flags else j % 256

/-- A concrete AFC = 3 packet with the PCR flag set whose PCR sub-field
window holds the bytes 00 00 00 00 80 00. -/
def c4_packet : PacketData :=
  fun j => if j = 3 then 0x30 else if j = 5 then 0x10 else if j = 10 then 0x80 else 0

/-- A concrete AFC = 3 packet with adaptation-field length 10 and body
bytes equal to their own index. -/
def c6_packet : PacketData :=
  fun j => if j = 3 then 0x30 else if j = 4 then 10 else j % 256

/-- The first decoded elementary stream of a synthesized PMT packet. -/
def first_pmt_stream (p : Option PacketData) : Option (List Nat) :=
  (((p.bind tables).bind section_data).bind table_data).bind elementary_streams

/-! ## Basic facts about `extract` and `writeBytes` -/

theorem extract_length (p : PacketData) (s n : Nat) : (extract p s n).length = n := by
  simp [extract]

theorem extract_succ (p : PacketData) (s n : Nat) :
    extract p s (n + 1) = p s :: extract p (s + 1) n := by
  simp only [extract, List.range_succ_eq_map, List.map_cons, List.map_map]
  congr 1
  apply List.map_congr_left
  intro i _
  simp only [Function.comp]
  congr 1
  omega

theorem extract_split (p : PacketData) (s m n : Nat) :
    extract p s (m + n) = extract p s m ++ extract p (s + m) n := by
  simp only [extract, List.range_add, List.map_append, List.map_map]
  congr 1
  apply List.map_congr_left
  intro i _
  simp only [Function.comp]
  congr 1
  omega

theorem extract_congr {p q : PacketData} {s n : Nat}
    (h : ∀ j, s ≤ j → j < s + n → p j = q j) : extract p s n = extract q s n := by
  simp only [extract]
  apply List.map_congr_left
  intro i hi
  exact h (s + i) (by omega) (by have := List.mem_range.mp hi; omega)

theorem getD_extract {p : PacketData} {s n i : Nat} (h : i < n) :
    (extract p s n).getD i 0 = p (s + i) := by
  simp only [extract, List.getD_eq_getElem?_getD, List.getElem?_map]
  rw [List.getElem?_range h]
  rfl

theorem extract_drop (p : PacketData) (s n k : Nat) (h : k ≤ n) :
    (extract p s n).drop k = extract p (s + k) (n - k) := by
  conv_lhs => rw [show n = k + (n - k) from by omega, extract_split]
  exact List.drop_left' (extract_length p s k)

theorem writeBytes_spec (vs : List Nat) :
    ∀ (p : PacketData) (i : Nat), i + vs.length ≤ 188 →
    ∃ q, writeBytes p i vs = some q ∧
      (∀ j, j < i ∨ i + vs.length ≤ j → q j = p j) ∧
      extract q i vs.length = vs.map (· % 256) := by
  induction vs with
  | nil =>
      intro p i _
      exact ⟨p, rfl, fun j _ => rfl, by simp [extract]⟩
  | cons v vs ih =>
      intro p i h
      have hlen : (v :: vs).length = vs.length + 1 := rfl
      rw [hlen] at h
      have hi : i < 188 := by omega
      obtain ⟨q, hq, hout, hex⟩ :=
        ih (fun j => if j = i then v % 256 else p j) (i + 1) (by omega)
      have hqi : q i = v % 256 := by
        have := hout i (Or.inl (by omega))
        simpa using this
      refine ⟨q, ?_, ?_, ?_⟩
      · simp [writeBytes, aset, hi, hq]
      · intro j hj
        rw [hlen] at hj
        have hne : j ≠ i := by omega
        have hj2 : j < i + 1 ∨ i + 1 + vs.length ≤ j := by omega
        have := hout j hj2
        simpa [hne] using this
      · rw [hlen, extract_succ, hqi, List.map_cons, hex]

/-! ## Settling the adaptation-field and payload claims -/

theorem read_pcr_window7 (p : PacketData) (s : Nat) :
    read_pcr_data (extract p s 7) = read_pcr_data (extract p s 6) := by
  have h6 : ∀ i, i < 6 → (extract p s 7).getD i 0 = (extract p s 6).getD i 0 := by
    intro i hi
    rw [getD_extract (by omega), getD_extract (by omega)]
  simp only [read_pcr_data, read_u32, read_u16]
  rw [h6 0 (by omega), h6 1 (by omega), h6 2 (by omega), h6 3 (by omega),
      h6 4 (by omega), h6 5 (by omega)]

/-- C7: `opcr()` is gated only on `has_pcr` (irrespective of `has_opcr`):
when the PCR flag is set it returns the PCR decoding of the 6-byte OPCR
sub-field window at packet byte 13 (immediately after the 7-byte slice
`data[6..13]` that `pcr()` takes), and when the PCR flag is clear it
returns 0. -/
theorem c7_opcr_gating (p : PacketData) :
    opcr p = if has_pcr p then read_pcr_data (extract p 13 6) else 0 := by
  by_cases h : has_pcr p
  · simp [opcr, h, read_pcr_window7]
  · simp [opcr, pcr, h]

/-- C4 (code bug): at the PCR byte window 00 00 00 00 80 00 the code
returns 0 while the claimed decoding (base = (high << 1) | bit15(low))
gives 300; `pcr()` exhibits the same on a packet carrying that window.
The cause is Rust operator precedence in read_pcr_data. -/
theorem c4_pcr_decode_bug :
    read_pcr_data [0, 0, 0, 0, 0x80, 0] = 0 ∧
    decode_pcr_spec [0, 0, 0, 0, 0x80, 0] = 300 ∧
    pcr c4_packet = 0 ∧ decode_pcr_spec (extract c4_packet 6 6) = 300 := by
  decide

/-- C3 (code bug): with PCR and splice_countdown present the code reads
splice_countdown at packet byte 13 while the claimed cumulative-offset
rule (6 + 6 for the preceding PCR) gives byte 12; with only
transport_private_data present the code reads the length at byte 7 while
the rule gives byte 6. -/
theorem c3_offset_bug :
    splice_countdown (af_flags_packet 0x14) = 13 ∧
    splice_offset_spec (af_flags_packet 0x14) = 12 ∧
    transport_private_data_len (af_flags_packet 0x02) = 7 ∧
    tpd_len_offset_spec (af_flags_packet 0x02) = 6 := by
  decide

/-- C6 (counterexample): on a packet with an adaptation field of length
10 the code's payload starts at byte 4 + 10 = 14, not at byte
4 + (10 + 1) = 15 as the claim states. -/
theorem c6_counterexample :
    payload_data c6_packet = some (extract c6_packet 14 174) ∧
    payload_data_spec c6_packet = some (extract c6_packet 15 173) ∧
    extract c6_packet 14 174 ≠ extract c6_packet 15 173 := by
  decide

/-- C6 (amended): `payload_data()` returns the byte range starting at
offset 4 + adaptation-field length (without the extra +1 for the length
byte) when an adaptation field is present, else at offset 4, through byte
187 inclusive with no trimming. -/
theorem c6_payload_offset (p : PacketData) :
    payload_data p =
      if has_adaptation_field p then
        (if 4 + aflen p ≤ 188 then some (extract p (4 + aflen p) (188 - (4 + aflen p)))
         else none)
      else some (extract p 4 184) := by
  by_cases h : has_adaptation_field p
  · simp [payload_data, h]
  · simp [payload_data, h]

/-- C9 (code bug): for the 42-bit tick count 2^41 the u64 product
`ticks * 1_000_000_000` wraps modulo 2^64, so pcr_to_nanos does not
return the exact truncated quotient the claim states. -/
theorem c9_nanos_overflow :
    pcr_to_nanos 2199023255552 ≠ 2199023255552 * 1000000000 / 27000000 := by
  decide

/-! ## Bounds-error behavior of the decode accessors (C8) -/

/-- C8: whenever a declared length field (section_length, the derived
section size for table_data, ES_info_length, program_info_length,
transport_private_data length, adaptation-field length, or the payload
pointer byte) claims more bytes than the frame or backing buffer holds,
the decode accessor surfaces the explicit error value (`none`, the
embedding of the Rust bounds panic — defined behavior, never junk data). -/
theorem c8_bounds_errors :
    (∀ s : List Nat, s.length < 3 + section_length s → section_data s = none) ∧
    (∀ s : List Nat, s.length < 12 → table_data s = none) ∧
    (∀ e : List Nat, e.length < 5 + es_info_len e → es_info e = none) ∧
    (∀ t : List Nat, 0 < program_info_len t → t.length < 4 + program_info_len t →
      descriptor_data t = none) ∧
    (∀ p : PacketData, has_transport_private_data p = true →
      188 < 8 + transport_private_data_len p → transport_private_data p = none) ∧
    (∀ p : PacketData, has_adaptation_field p = true → 188 < 4 + aflen p →
      payload_data p = none) ∧
    (∀ (p : PacketData) (d : Nat) (rest : List Nat), has_payload p = true →
      payload_data p = some (d :: rest) → rest.length < d → tables p = none) := by
  refine ⟨?_, ?_, ?_, ?_, ?_, ?_, ?_⟩
  · intro s h
    simp only [section_data]
    rw [if_neg (by omega)]
  · intro s h
    simp only [table_data]
    rw [if_neg (by omega)]
  · intro e h
    simp only [es_info]
    rw [if_neg (by omega)]
  · intro t h0 h
    simp only [descriptor_data]
    rw [if_pos h0, if_neg (by omega)]
  · intro p hf h
    cases hs : has_splice_countdown p <;> cases hp : has_pcr p <;> cases ho : has_opcr p <;>
      (simp [transport_private_data, frame_slice, hf, hs, hp, ho]; omega)
  · intro p hf h
    simp only [payload_data, hf, if_true]
    rw [if_neg (by omega)]
  · intro p d rest hp hpd h
    simp [tables, hp, hpd]
    omega

/-- C8 witness: the bounds errors observed on concrete malformed inputs. -/
theorem c8_bounds_errors_witness :
    section_data [0, 0xFF, 0xFF] = none ∧
    table_data [0] = none ∧
    es_info [0, 0, 0, 0xFF, 0xFF] = none ∧
    descriptor_data [0, 0, 0xFF, 0xFF] = none ∧
    transport_private_data (fun j => if j = 3 then 0x30 else if j = 5 then 2 else 0xFF) = none ∧
    payload_data (fun j => if j = 3 then 0x30 else 200) = none ∧
    tables (fun j => if j = 3 then 0x10 else 200) = none :=
  ⟨c8_bounds_errors.1 [0, 0xFF, 0xFF] (by decide),
   c8_bounds_errors.2.1 [0] (by decide),
   c8_bounds_errors.2.2.1 [0, 0, 0, 0xFF, 0xFF] (by decide),
   c8_bounds_errors.2.2.2.1 [0, 0, 0xFF, 0xFF] (by decide) (by decide),
   c8_bounds_errors.2.2.2.2.1 _ (by decide) (by decide),
   c8_bounds_errors.2.2.2.2.2.1 _ (by decide) (by decide),
   c8_bounds_errors.2.2.2.2.2.2 _ 200 (extract (fun j => if j = 3 then 0x10 else 200) 5 183)
     (by decide) (by decide) (by decide)⟩

/-! ## The CRC32 engine equals the spec's bit-serial MPEG-2 CRC (C1) -/

theorem crc_step_lt (c d : Nat) : crc_step c d < 4294967296 := by
  have h : (c <<< 1) % 4294967296 < 4294967296 := Nat.mod_lt _ (by norm_num)
  unfold crc_step
  split
  · have hx : ((c <<< 1) % 4294967296) ^^^ 0x04C11DB7 < 2 ^ 32 :=
      Nat.xor_lt_two_pow (by norm_num; omega) (by norm_num)
    norm_num at hx
    exact hx
  · exact h

theorem mpeg2_crc32_step_lt (a : Nat) (bit : Bool) : mpeg2_crc32_step a bit < 4294967296 := by
  have h : (a <<< 1) % 4294967296 < 4294967296 := Nat.mod_lt _ (by norm_num)
  unfold mpeg2_crc32_step
  split
  · have hx : ((a <<< 1) % 4294967296) ^^^ 0x04C11DB7 < 2 ^ 32 :=
      Nat.xor_lt_two_pow (by norm_num; omega) (by norm_num)
    norm_num at hx
    exact hx
  · exact h

theorem crc_byte_lt : ∀ (k c d : Nat), c < 4294967296 → crc_byte k c d < 4294967296
  | 0, _, _, h => h
  | k + 1, c, d, _ => crc_byte_lt k _ _ (crc_step_lt c d)

theorem decide_sign_eq {c : Nat} (h : c < 4294967296) :
    decide (0x80000000 ≤ c) = c.testBit 31 := by
  rw [Nat.testBit_to_div_mod, decide_eq_decide]
  norm_num
  omega

theorem decide_bit_eq : ∀ b, b < 256 → ∀ j, j < 8 →
    decide (0x80 ≤ (b <<< j) % 256) = b.testBit (7 - j) := by decide

theorem crc_byte_spec_aux (b : Nat) (hb : b < 256) :
    ∀ (k j : Nat), k + j = 8 → ∀ c, c < 4294967296 →
      crc_byte k c ((b <<< j) % 256) =
        (List.range k).foldl (fun a i => mpeg2_crc32_step a (b.testBit (7 - (j + i)))) c := by
  intro k
  induction k generalizing b with
  | zero => intro j _ c _; rfl
  | succ k ih =>
      intro j hkj c hc
      have hdat : (((b <<< j) % 256) <<< 1) % 256 = (b <<< (j + 1)) % 256 := by
        simp only [Nat.shiftLeft_eq, pow_one]
        rw [pow_succ, ← Nat.mul_assoc, Nat.mod_mul_mod]
      have hstep : crc_step c ((b <<< j) % 256) = mpeg2_crc32_step c (b.testBit (7 - j)) := by
        unfold crc_step mpeg2_crc32_step
        rw [decide_sign_eq hc, decide_bit_eq b hb j (by omega)]
      rw [crc_byte, hdat, hstep,
        ih b hb (j + 1) (by omega) _ (mpeg2_crc32_step_lt c (b.testBit (7 - j)))]
      rw [List.range_succ_eq_map, List.foldl_cons, List.foldl_map]
      have hfun : (fun (a i : Nat) => mpeg2_crc32_step a (b.testBit (7 - (j + 1 + i)))) =
          (fun (a i : Nat) => mpeg2_crc32_step a (b.testBit (7 - (j + Nat.succ i)))) := by
        funext a i
        rw [show j + 1 + i = j + Nat.succ i from by omega]
      rw [hfun]
      rw [show j + 0 = j from rfl]

theorem crc_byte_spec (c b : Nat) (hc : c < 4294967296) (hb : b < 256) :
    crc_byte 8 c b = mpeg2_crc32_byte c b := by
  have h := crc_byte_spec_aux b hb 8 0 rfl c hc
  rw [Nat.shiftLeft_zero, Nat.mod_eq_of_lt hb] at h
  rw [h]
  unfold mpeg2_crc32_byte
  congr 1
  funext a i
  rw [Nat.zero_add]

theorem calc_fold_spec : ∀ (l : List Nat) (c : Nat), c < 4294967296 → (∀ b ∈ l, b < 256) →
    l.foldl (fun crc b => crc_byte 8 crc b) c = l.foldl mpeg2_crc32_byte c := by
  intro l
  induction l with
  | nil => intros; rfl
  | cons b l ih =>
      intro c hc hb
      simp only [List.foldl_cons]
      rw [crc_byte_spec c b hc (hb b (by simp))]
      have hlt : mpeg2_crc32_byte c b < 4294967296 := by
        rw [← crc_byte_spec c b hc (hb b (by simp))]
        exact crc_byte_lt 8 c b hc
      exact ih _ hlt (fun x hx => hb x (by simp [hx]))

/-- C1: for byte inputs of length at least 4, calc_crc32 equals the
spec's MPEG-2 bit-serial CRC32 (seed 0xFFFFFFFF, polynomial 0x04C11DB7,
MSB-first, no reflection, no final XOR) over all bytes except the
trailing 4; shorter inputs give 0. -/
theorem c1_calc_crc32 (l : List Nat) (hl : ∀ b ∈ l, b < 256) :
    calc_crc32 l = if 4 ≤ l.length then mpeg2_crc32 (l.take (l.length - 4)) else 0 := by
  by_cases h : 4 ≤ l.length
  · rw [calc_crc32, if_pos h, if_pos h]
    unfold mpeg2_crc32
    exact calc_fold_spec _ _ (by norm_num) (fun b hb => hl b (List.take_subset _ _ hb))
  · rw [calc_crc32, if_neg h, if_neg h]

/-- C1 witness: a concrete 5-byte input, where the CRC runs over the
first byte only. -/
theorem c1_calc_crc32_witness :
    calc_crc32 [1, 2, 3, 4, 5] =
      if 4 ≤ ([1, 2, 3, 4, 5] : List Nat).length then
        mpeg2_crc32 (([1, 2, 3, 4, 5] : List Nat).take (([1, 2, 3, 4, 5] : List Nat).length - 4))
      else 0 :=
  c1_calc_crc32 [1, 2, 3, 4, 5] (by decide)

/-! ## Arithmetic helpers for the synthesized-table proofs -/

theorem or_lt_256 {a b : Nat} (ha : a < 256) (hb : b < 256) : a ||| b < 256 := by
  have ha2 : a < 2 ^ 8 := by norm_num; omega
  have hb2 : b < 2 ^ 8 := by norm_num; omega
  have h := Nat.or_lt_two_pow ha2 hb2
  norm_num at h
  exact h

theorem mask255 (x : Nat) : x &&& 0xFF = x % 256 := by
  have h : (0xFF : Nat) = 2 ^ 8 - 1 := by norm_num
  rw [h, Nat.and_pow_two_sub_one_eq_mod]

theorem mask15 (x : Nat) : x &&& 0xF = x % 16 := by
  have h : (0xF : Nat) = 2 ^ 4 - 1 := by norm_num
  rw [h, Nat.and_pow_two_sub_one_eq_mod]

theorem mask8191 (x : Nat) : 0x1FFF &&& x = x % 8192 := by
  rw [Nat.and_comm]
  have h : (0x1FFF : Nat) = 2 ^ 13 - 1 := by norm_num
  rw [h, Nat.and_pow_two_sub_one_eq_mod]

theorem mask1023 (x : Nat) : 0x3FF &&& x = x % 1024 := by
  rw [Nat.and_comm]
  have h : (0x3FF : Nat) = 2 ^ 10 - 1 := by norm_num
  rw [h, Nat.and_pow_two_sub_one_eq_mod]

theorem pat_body_map_mod (num pid : Nat) : (pat_body num pid).map (· % 256) = pat_body num pid := by
  have h1 : ((0x80 ||| 0x30 : Nat)) % 256 = 0x80 ||| 0x30 := by decide
  have hor : (0xE0 ||| ((pid >>> 8) % 256)) % 256 = 0xE0 ||| ((pid >>> 8) % 256) :=
    Nat.mod_eq_of_lt (or_lt_256 (by norm_num) (by omega))
  simp only [pat_body, List.map_cons, List.map_nil, mask255, h1, hor, List.cons.injEq,
    and_true, true_and]
  omega

theorem be32_map_mod (v : Nat) : (be32 v).map (· % 256) = be32 v := by
  simp only [be32, List.map_cons, List.map_nil, List.cons.injEq, and_true]
  omega

theorem pat_body_length (num pid : Nat) : (pat_body num pid).length = 12 := by
  simp [pat_body]

theorem be32_length (v : Nat) : (be32 v).length = 4 := by
  simp [be32]

theorem pat_section_length_eq (num pid : Nat) : (pat_section num pid).length = 16 := by
  simp [pat_section, pat_body_length, be32_length]

theorem calc_crc32_append_four (a b : List Nat) (hb : b.length = 4) :
    calc_crc32 (a ++ b) = a.foldl (fun crc x => crc_byte 8 crc x) 0xFFFFFFFF := by
  unfold calc_crc32
  rw [List.length_append, hb, if_pos (by omega)]
  rw [show a.length + 4 - 4 = a.length from by omega]
  rw [List.take_left' rfl]

theorem calc_crc32_lt (l : List Nat) : calc_crc32 l < 4294967296 := by
  have hfold : ∀ (m : List Nat) (c : Nat), c < 4294967296 →
      m.foldl (fun crc b => crc_byte 8 crc b) c < 4294967296 := by
    intro m
    induction m with
    | nil => intro c hc; exact hc
    | cons b m ih => intro c hc; exact ih _ (crc_byte_lt 8 c b hc)
  unfold calc_crc32
  split
  · exact hfold _ _ (by norm_num)
  · norm_num

/-! ## Byte-level description of create_pat_packet -/

theorem insert_pat_spec (offset num pid : Nat) (pat : PacketData) (h : offset + 16 ≤ 188) :
    ∃ q, insert_pat_payload offset num pid pat = some q ∧
      (∀ j, j < offset ∨ offset + 16 ≤ j → q j = pat j) ∧
      extract q offset 16 = pat_section num pid := by
  obtain ⟨p1, hp1, hout1, hex1⟩ :=
    writeBytes_spec (pat_body num pid) pat offset (by rw [pat_body_length]; omega)
  rw [pat_body_length] at hout1
  rw [pat_body_length, pat_body_map_mod] at hex1
  have hwin : extract p1 offset 16 = pat_body num pid ++ extract pat (offset + 12) 4 := by
    rw [show (16 : Nat) = 12 + 4 from rfl, extract_split, hex1]
    congr 1
    exact extract_congr (fun j hj1 _ => hout1 j (Or.inr hj1))
  have hcrc : calc_crc32 (extract p1 offset 16) = pat_crc num pid := by
    rw [hwin, pat_crc, calc_crc32_append_four _ _ (by rw [extract_length]),
      calc_crc32_append_four _ _ (by rfl)]
  obtain ⟨q, hq, hout2, hex2⟩ :=
    writeBytes_spec (be32 (calc_crc32 (extract p1 offset 16))) p1 (offset + 12)
      (by rw [be32_length]; omega)
  rw [be32_length] at hout2
  rw [be32_length, be32_map_mod] at hex2
  refine ⟨q, ?_, ?_, ?_⟩
  · simp only [insert_pat_payload, hp1, Option.bind_eq_bind, Option.some_bind]
    rw [if_pos h]
    exact hq
  · intro j hj
    have h1 : q j = p1 j := by
      apply hout2
      rcases hj with hj | hj
      · exact Or.inl (by omega)
      · exact Or.inr (by omega)
    rw [h1]
    apply hout1
    rcases hj with hj | hj
    · exact Or.inl hj
    · exact Or.inr (by omega)
  · rw [show (16 : Nat) = 12 + 4 from rfl, extract_split]
    have hlow : extract q offset 12 = pat_body num pid := by
      rw [← hex1]
      exact extract_congr (fun j _ hj2 => hout2 j (Or.inl (by omega)))
    rw [hlow, hex2, hcrc, pat_section]

theorem write_pat_sections_spec (pointer : Nat) (ps : List Nat) :
    ∀ (k : Nat) (pat : PacketData),
      pointer + 5 + 16 * (k + ps.length) ≤ 188 →
      ∃ q, write_pat_sections pointer k ps pat = some q ∧
        (∀ j, j < pointer + 5 + 16 * k → q j = pat j) ∧
        extract q (pointer + 5 + 16 * k) (16 * ps.length) = pat_sections (k + 1) ps := by
  induction ps with
  | nil =>
      intro k pat _
      refine ⟨pat, rfl, fun j _ => rfl, ?_⟩
      simp [pat_sections, extract]
  | cons pid rest ih =>
      intro k pat h
      rw [List.length_cons] at h
      have hoff : (pointer + 5 + 16 * k) + 16 ≤ 188 := by omega
      obtain ⟨p1, hp1, hout1, hex1⟩ := insert_pat_spec (pointer + 5 + 16 * k) (k + 1) pid pat hoff
      obtain ⟨q, hq, hout2, hex2⟩ := ih (k + 1) p1 (by omega)
      refine ⟨q, ?_, ?_, ?_⟩
      · simp only [write_pat_sections, hp1, Option.bind_eq_bind, Option.some_bind]
        exact hq
      · intro j hj
        have e1 : q j = p1 j := hout2 j (by omega)
        rw [e1]
        exact hout1 j (Or.inl hj)
      · have hsplit : 16 * (pid :: rest).length = 16 + 16 * rest.length := by
          rw [List.length_cons]; ring
        rw [hsplit, extract_split]
        have hfirst : extract q (pointer + 5 + 16 * k) 16 = pat_section (k + 1) pid := by
          rw [← hex1]
          exact extract_congr (fun j hj1 hj2 => hout2 j (by omega))
        have hrest : extract q (pointer + 5 + 16 * k + 16) (16 * rest.length) =
            pat_sections (k + 2) rest := by
          rw [show pointer + 5 + 16 * k + 16 = pointer + 5 + 16 * (k + 1) from by ring]
          exact hex2
        rw [hfirst, hrest]
        rfl

theorem create_pat_packet_spec (pids : List Nat) (cc : Nat) (h11 : pids.length ≤ 11) :
    ∃ P, create_pat_packet pids cc = some P ∧
      P 0 = 0x47 ∧ P 1 = 0x40 ∧ P 2 = 0 ∧ P 3 = 16 + (cc &&& 0xF) ∧
      P 4 = 183 - 16 * pids.length ∧
      extract P (188 - 16 * pids.length) (16 * pids.length) = pat_sections 1 pids := by
  have hguard : 5 + 16 * pids.length ≤ 188 := by omega
  obtain ⟨Q, hQ, hout, hex⟩ := write_pat_sections_spec (188 - 5 - 16 * pids.length) pids 0
    (fun j => if j = 4 then (188 - 5 - 16 * pids.length) % 256
      else create_packet false true false 0 0 1 cc j) (by omega)
  have hlow : ∀ j, j ≤ 4 → Q j =
      if j = 4 then (188 - 5 - 16 * pids.length) % 256
      else create_packet false true false 0 0 1 cc j :=
    fun j hj => hout j (by omega)
  refine ⟨Q, ?_, ?_, ?_, ?_, ?_, ?_, ?_⟩
  · simp only [create_pat_packet]
    rw [if_pos hguard]
    simp only [aset, if_pos (show (4 : Nat) < 188 by norm_num), Option.bind_eq_bind,
      Option.some_bind]
    exact hQ
  · rw [hlow 0 (by omega)]
    simp [create_packet]
  · rw [hlow 1 (by omega)]
    simp [create_packet]
    decide
  · rw [hlow 2 (by omega)]
    simp [create_packet]
  · rw [hlow 3 (by omega)]
    have h16 : (16 &&& 48 : Nat) = 16 := by decide
    have h0a : (0 &&& 192 : Nat) = 0 := by decide
    simp [create_packet, mask15, h16, h0a]
    omega
  · rw [hlow 4 (by omega), if_pos rfl]
    omega
  · rw [show 188 - 16 * pids.length = 188 - 5 - 16 * pids.length + 5 + 16 * 0 from by omega]
    exact hex

theorem afc_bits : ∀ c, c < 16 → ((1195376656 + c) &&& 48) >>> 4 = 1 := by decide

theorem create_pat_header_afc (P : PacketData) (cc : Nat)
    (h0 : P 0 = 0x47) (h1 : P 1 = 0x40) (h2 : P 2 = 0) (h3 : P 3 = 16 + (cc &&& 0xF)) :
    afc P = 1 := by
  have hcc : cc &&& 0xF < 16 := by rw [mask15]; omega
  have hh : header P = 1195376656 + (cc &&& 0xF) := by
    unfold header
    rw [h0, h1, h2, h3, Nat.shiftLeft_eq, Nat.shiftLeft_eq, Nat.shiftLeft_eq]
    norm_num
    omega
  unfold afc
  rw [hh]
  exact afc_bits _ hcc

theorem create_pat_decoded (pids : List Nat) (cc : Nat)
    (hlen : 1 ≤ pids.length) (h11 : pids.length ≤ 11) :
    ∃ P, create_pat_packet pids cc = some P ∧
      tables P = some (pat_sections 1 pids) := by
  obtain ⟨P, hP, h0, h1, h2, h3, h4, hex⟩ := create_pat_packet_spec pids cc h11
  have hafc : afc P = 1 := create_pat_header_afc P cc h0 h1 h2 h3
  have hpay : has_payload P = true := by
    unfold has_payload
    rw [hafc]
    decide
  have haf : has_adaptation_field P = false := by
    unfold has_adaptation_field
    rw [hafc]
    decide
  refine ⟨P, hP, ?_⟩
  simp only [tables, hpay, if_true, payload_data, haf, Bool.false_eq_true, if_false,
    if_pos (show (4 : Nat) ≤ 188 by norm_num), Option.bind_eq_bind, Option.some_bind]
  rw [show (188 - 4 : Nat) = 183 + 1 from rfl, extract_succ]
  dsimp only
  rw [extract_length, h4, if_pos (by omega), extract_drop _ _ _ _ (by omega)]
  rw [show 5 + (183 - 16 * pids.length) = 188 - 16 * pids.length from by omega,
    show 183 - (183 - 16 * pids.length) = 16 * pids.length from by omega]
  exact congrArg some hex

/-! ## Decoding the synthesized PAT sections -/

theorem pat_sections_len (ps : List Nat) : ∀ n, (pat_sections n ps).length = 16 * ps.length := by
  induction ps with
  | nil => intro n; simp [pat_sections]
  | cons pid rest ih =>
      intro n
      simp only [pat_sections, List.length_append, pat_section_length_eq, ih, List.length_cons]
      ring

theorem section_length_pat (num pid : Nat) (t : List Nat) :
    section_length (pat_section num pid ++ t) = 13 := by
  simp [pat_section, pat_body, be32, section_length, read_u16]
  decide

theorem table_id_pat (num pid : Nat) (t : List Nat) :
    table_id (pat_section num pid ++ t) = 0 := by
  simp [pat_section, pat_body, be32, table_id]

theorem section_data_pat (num pid : Nat) (t : List Nat) :
    section_data (pat_section num pid ++ t) = some (pat_section num pid) := by
  unfold section_data
  rw [section_length_pat]
  rw [if_pos (by rw [List.length_append, pat_section_length_eq]; omega)]
  rw [show (3 + 13 : Nat) = 16 from rfl]
  exact congrArg some (List.take_left' (pat_section_length_eq num pid))

theorem next_pat_last (num pid : Nat) : next (pat_section num pid) = none := by
  unfold next
  rw [show pat_section num pid = pat_section num pid ++ [] from (List.append_nil _).symm,
    section_length_pat]
  rw [if_neg (by rw [List.length_append, pat_section_length_eq]; simp)]

theorem next_pat_cons (num pid m pid2 : Nat) (rest : List Nat) :
    next (pat_section num pid ++ pat_sections m (pid2 :: rest)) =
      some (pat_sections m (pid2 :: rest)) := by
  unfold next
  rw [section_length_pat]
  rw [if_pos (by
    rw [List.length_append, pat_section_length_eq, pat_sections_len, List.length_cons]
    omega)]
  dsimp only
  rw [show (3 + 13 : Nat) = 16 from rfl, List.drop_left' (pat_section_length_eq num pid)]
  rw [show pat_sections m (pid2 :: rest) = pat_section m pid2 ++ pat_sections (m + 1) rest
    from rfl]
  rw [table_id_pat]
  rw [if_pos (by norm_num)]

theorem nth_table_pat (ps : List Nat) : ∀ (n i : Nat), i < ps.length →
    nth_table (pat_sections n ps) i = some (pat_sections (n + i) (List.drop i ps)) := by
  induction ps with
  | nil => intro n i hi; simp at hi
  | cons pid rest ih =>
      intro n i hi
      cases i with
      | zero => simp [nth_table]
      | succ i =>
          rw [List.length_cons] at hi
          rw [show nth_table (pat_sections n (pid :: rest)) (i + 1) =
            (next (pat_sections n (pid :: rest))).bind (fun t => nth_table t i) from rfl]
          cases rest with
          | nil => simp only [List.length_nil] at hi; omega
          | cons pid2 rest2 =>
              rw [show pat_sections n (pid :: pid2 :: rest2) =
                pat_section n pid ++ pat_sections (n + 1) (pid2 :: rest2) from rfl]
              rw [next_pat_cons]
              rw [Option.some_bind]
              rw [ih (n + 1) i (by rw [List.length_cons] at hi ⊢; omega)]
              rw [show n + 1 + i = n + (i + 1) from by omega]
              rfl

theorem nth_table_pat_end (ps : List Nat) : ∀ n, ps ≠ [] →
    nth_table (pat_sections n ps) ps.length = none := by
  induction ps with
  | nil => intro n h; exact absurd rfl h
  | cons pid rest ih =>
      intro n _
      rw [List.length_cons]
      rw [show nth_table (pat_sections n (pid :: rest)) (rest.length + 1) =
        (next (pat_sections n (pid :: rest))).bind (fun t => nth_table t rest.length) from rfl]
      cases rest with
      | nil =>
          rw [show pat_sections n [pid] = pat_section n pid ++ pat_sections (n + 1) [] from rfl,
            show pat_sections (n + 1) ([] : List Nat) = [] from rfl, List.append_nil,
            next_pat_last]
          rfl
      | cons pid2 rest2 =>
          rw [show pat_sections n (pid :: pid2 :: rest2) =
            pat_section n pid ++ pat_sections (n + 1) (pid2 :: rest2) from rfl]
          rw [next_pat_cons]
          rw [Option.some_bind]
          exact ih (n + 1) (List.cons_ne_nil pid2 rest2)

theorem pat_section_fields (num pid : Nat) :
    table_id (pat_section num pid) = 0 ∧
    section_length (pat_section num pid) = 13 ∧
    table_id_ext (pat_section num pid) = 1 ∧
    version (pat_section num pid) = 0 ∧
    current (pat_section num pid) = true ∧
    section_num (pat_section num pid) = 0 ∧
    last_section_num (pat_section num pid) = 0 := by
  refine ⟨?_, ?_, ?_, ?_, ?_, ?_, ?_⟩ <;>
    simp [pat_section, pat_body, be32, table_id, section_length, table_id_ext, version,
      current, section_num, last_section_num, read_u16] <;> decide

theorem table_data_pat (num pid : Nat) :
    table_data (pat_section num pid) =
      some [(num >>> 8) % 256, num &&& 0xFF, 0xE0 ||| ((pid >>> 8) % 256), pid &&& 0xFF] := by
  unfold table_data
  rw [pat_section_length_eq]
  rw [if_pos (by omega)]
  rw [show (16 - 4 : Nat) = 12 from rfl, pat_section,
    List.take_left' (pat_body_length num pid)]
  rfl

theorem program_num_pat (num pid : Nat) (h : num < 65536) :
    program_num [(num >>> 8) % 256, num &&& 0xFF, 0xE0 ||| ((pid >>> 8) % 256),
      pid &&& 0xFF] = num := by
  simp [program_num, read_u16, mask255, Nat.shiftLeft_eq, Nat.shiftRight_eq_div_pow]
  omega

theorem program_map_pid_pat (num pid : Nat) (h : pid < 8192) :
    program_map_pid [(num >>> 8) % 256, num &&& 0xFF, 0xE0 ||| ((pid >>> 8) % 256),
      pid &&& 0xFF] = pid := by
  have hlt : pid >>> 8 < 32 := by rw [Nat.shiftRight_eq_div_pow]; norm_num; omega
  have h32 : ∀ x, x < 32 → (0xE0 ||| x : Nat) = 224 + x := by decide
  have hor : (0xE0 ||| ((pid >>> 8) % 256) : Nat) = 224 + pid >>> 8 := by
    rw [Nat.mod_eq_of_lt (by omega)]
    exact h32 _ hlt
  simp only [program_map_pid, read_u16] at hor ⊢
  simp [mask255, mask8191]
  rw [hor, Nat.shiftLeft_eq, Nat.shiftRight_eq_div_pow]
  norm_num
  omega

theorem crc32_pat (num pid : Nat) :
    crc32 (pat_section num pid) = calc_crc32 (pat_section num pid) := by
  have hlt : pat_crc num pid < 4294967296 := calc_crc32_lt _
  have hcalc : calc_crc32 (pat_section num pid) = pat_crc num pid := by
    rw [pat_section, calc_crc32_append_four _ _ (be32_length _), pat_crc,
      calc_crc32_append_four (pat_body num pid) [0xFF, 0xFF, 0xFF, 0xFF] (by rfl)]
  rw [hcalc]
  unfold crc32
  rw [pat_section_length_eq, show (16 - 4 : Nat) = 12 from rfl]
  simp [pat_section, pat_body, be32, read_u32, Nat.shiftLeft_eq, Nat.shiftRight_eq_div_pow]
  omega

/-- C2: decoding a synthesized PAT packet (at most 11 program pids, each
at most 0x1FFF, any continuity counter) through tables() and repeated
next() yields exactly N chained 16-byte sections; section i has
table_id 0, section_length 13, table_id_extension 1, version 0, current
set, section and last-section numbers 0, program number i+1, the supplied
program_map_pid, and a CRC trailer equal to calc_crc32 of the section. -/
theorem c2_pat_roundtrip (pids : List Nat) (cc : Nat)
    (hlen : 1 ≤ pids.length) (h11 : pids.length ≤ 11) (hpid : ∀ x ∈ pids, x ≤ 0x1FFF) :
    ∃ P t, create_pat_packet pids cc = some P ∧ tables P = some t ∧
      nth_table t pids.length = none ∧
      ∀ i, i < pids.length →
        ∃ s sec td, nth_table t i = some s ∧ section_data s = some sec ∧
          sec.length = 16 ∧ table_id sec = 0 ∧ section_length sec = 13 ∧
          table_id_ext sec = 1 ∧ version sec = 0 ∧ current sec = true ∧
          section_num sec = 0 ∧ last_section_num sec = 0 ∧
          table_data sec = some td ∧ program_num td = i + 1 ∧
          program_map_pid td = pids.getD i 0 ∧
          crc32 sec = calc_crc32 sec := by
  obtain ⟨P, hP, ht⟩ := create_pat_decoded pids cc hlen h11
  refine ⟨P, pat_sections 1 pids, hP, ht, ?_, ?_⟩
  · refine nth_table_pat_end pids 1 ?_
    intro h
    rw [h] at hlen
    simp at hlen
  · intro i hi
    have hchain := nth_table_pat pids 1 i hi
    have hdrop : List.drop i pids = pids.getD i 0 :: List.drop (i + 1) pids := by
      rw [List.drop_eq_getElem_cons hi]
      congr 1
      rw [List.getD_eq_getElem?_getD, List.getElem?_eq_getElem hi]
      rfl
    have hmem : pids.getD i 0 ∈ pids := by
      rw [List.getD_eq_getElem?_getD, List.getElem?_eq_getElem hi]
      exact List.getElem_mem hi
    refine ⟨pat_sections (1 + i) (List.drop i pids),
      pat_section (1 + i) (pids.getD i 0),
      [((1 + i) >>> 8) % 256, (1 + i) &&& 0xFF,
        0xE0 ||| (((pids.getD i 0) >>> 8) % 256), (pids.getD i 0) &&& 0xFF],
      hchain, ?_, pat_section_length_eq _ _, (pat_section_fields _ _).1,
      (pat_section_fields _ _).2.1, (pat_section_fields _ _).2.2.1,
      (pat_section_fields _ _).2.2.2.1, (pat_section_fields _ _).2.2.2.2.1,
      (pat_section_fields _ _).2.2.2.2.2.1, (pat_section_fields _ _).2.2.2.2.2.2,
      table_data_pat _ _, ?_, ?_, crc32_pat _ _⟩
    · rw [hdrop]
      rw [show pat_sections (1 + i) (pids.getD i 0 :: List.drop (i + 1) pids) =
        pat_section (1 + i) (pids.getD i 0) ++
          pat_sections (1 + i + 1) (List.drop (i + 1) pids) from rfl]
      exact section_data_pat _ _ _
    · exact (program_num_pat (1 + i) (pids.getD i 0) (by omega)).trans (by omega)
    · exact program_map_pid_pat (1 + i) (pids.getD i 0) (by have := hpid _ hmem; omega)

/-- C2 witness: the round trip evaluated for one program pid 0x100 and
continuity counter 7. -/
theorem c2_pat_roundtrip_witness :
    ∃ P t, create_pat_packet [256] 7 = some P ∧ tables P = some t ∧
      nth_table t 1 = none ∧
      ∀ i, i < 1 →
        ∃ s sec td, nth_table t i = some s ∧ section_data s = some sec ∧
          sec.length = 16 ∧ table_id sec = 0 ∧ section_length sec = 13 ∧
          table_id_ext sec = 1 ∧ version sec = 0 ∧ current sec = true ∧
          section_num sec = 0 ∧ last_section_num sec = 0 ∧
          table_data sec = some td ∧ program_num td = i + 1 ∧
          program_map_pid td = [(256 : Nat)].getD i 0 ∧
          crc32 sec = calc_crc32 sec :=
  c2_pat_roundtrip [256] 7 (by decide) (by decide) (by decide)

/-- C10: create_pat_packet is total for at most 11 pids — the pointer
value 188 - 5 - 16*N does not underflow, fits in a byte, and every store
stays inside the 188-byte frame (isSome means no store guard failed) —
while 12 or more pids make the pointer subtraction underflow, modelled as
`none`. -/
theorem c10_pat_totality (pids : List Nat) (cc : Nat) :
    (pids.length ≤ 11 →
      5 + 16 * pids.length ≤ 188 ∧ 188 - 5 - 16 * pids.length < 256 ∧
      (create_pat_packet pids cc).isSome = true) ∧
    (12 ≤ pids.length → create_pat_packet pids cc = none) := by
  constructor
  · intro h11
    obtain ⟨P, hP, _⟩ := create_pat_packet_spec pids cc h11
    exact ⟨by omega, by omega, by rw [hP]; rfl⟩
  · intro h12
    simp only [create_pat_packet]
    rw [if_neg (by omega)]

/-- C10 witness: totality observed for a 1-pid list and the underflow
for a 12-pid list. -/
theorem c10_pat_totality_witness :
    (5 + 16 * ([256] : List Nat).length ≤ 188 ∧
      188 - 5 - 16 * ([256] : List Nat).length < 256 ∧
      (create_pat_packet [256] 3).isSome = true) ∧
    create_pat_packet [0, 0, 0, 0, 0, 0, 0, 0, 0, 0, 0, 0] 3 = none :=
  ⟨(c10_pat_totality [256] 3).1 (by decide),
   (c10_pat_totality [0, 0, 0, 0, 0, 0, 0, 0, 0, 0, 0, 0] 3).2 (by decide)⟩

/-- C5 (code bug): the elementary-stream loop of create_pmt_packet
advances its write position by 1 byte per (pid, stream_type) pair instead
of 5, so entries overlap.  For the pairs [(0x101, 2), (0x102, 3)] the
decoded PMT yields a single stream entry whose elementary pid is 0x3E1
(not the supplied 0x101), with ES_info_length 752 and no further entry,
instead of the two supplied streams. -/
theorem c5_pmt_stride_bug :
    (first_pmt_stream (create_pmt_packet 0x100 [(0x101, 2), (0x102, 3)] 0)).map
      (fun es => (stream_type es, stream_pid es, es_info_len es, next_stream es)) =
      some (2, 0x3E1, 0x2F0, none) ∧ (0x3E1 : Nat) ≠ 0x101 := by
  decide

end TsUtil
